import Mathlib

/-!
Verification of the ProfitScout generic API core logic.

We give a shallow embedding of the two core algorithms of the service:
the artifact resolution engine (`find_best_artifact` / its pure selector
`selectBest` in `app/main.py`) and the options-signal expiration resolver
(`get_ticker_options_signals` in `app/routers/options_signals.py`), plus
the envelope builder, dataset listing and run-date resolver.

Strings are modelled as `List Char` (`Str`); timestamps and calendar
dates as `Nat`; external I/O (object-storage listing, warehouse queries,
JSON decoding) is passed in as explicit function or list parameters, so
every definition is an executable Lean function translated line by line
from the Python source.
-/

/-- Strings, modelled as lists of characters. -/
abbrev Str := List Char

/-- Coercion from Lean string literals into the `Str` model. -/
def str (s : String) : Str := s.toList

/-- Python `str.upper()` (ASCII letters, as used for tickers and item ids). -/
def upper (s : Str) : Str := s.map Char.toUpper

/-- Python string `<` comparison: lexicographic on code points. -/
def strLtB : Str → Str → Bool
  | [], [] => false
  | [], _ :: _ => true
  | _ :: _, [] => false
  | a :: as, b :: bs => if a < b then true else if b < a then false else strLtB as bs

/-- One stored object as listed from the bucket: its full name (key) and
its last-modified timestamp (`blob.updated`), modelled as a `Nat`. -/
structure Blob where
  name : Str
  updated : Nat
deriving DecidableEq, Repr

/-- `get_preferred_extensions` from `app/main.py`: the static extension
policy table, with the default order for unlisted datasets. -/
def get_preferred_extensions (dataset : Str) : List Str :=
  if dataset = str "recommendations" then [str ".md", str ".json"]
  else if dataset = str "business-summaries" then [str ".md", str ".json"]
  else if dataset = str "technicals" then [str ".json"]
  else if dataset = str "technicals-analysis" then [str ".json"]
  else if dataset = str "news-analysis" then [str ".json"]
  else if dataset = str "earnings-call-transcripts" then [str ".md", str ".txt"]
  else if dataset = str "transcript-analysis" then [str ".md", str ".json"]
  else if dataset = str "mda-analysis" then [str ".md", str ".json"]
  else if dataset = str "financials-analysis" then [str ".md", str ".json"]
  else if dataset = str "fundamentals-analysis" then [str ".md", str ".json"]
  else if dataset = str "financial-statements" then [str ".json"]
  else if dataset = str "key-metrics" then [str ".json"]
  else if dataset = str "ratios" then [str ".json"]
  else if dataset = str "headline-news" then [str ".json"]
  else if dataset = str "prices" then [str ".json"]
  else if dataset = str "price-chart-json" then [str ".json"]
  else if dataset = str "sec-business" then [str ".md", str ".txt"]
  else if dataset = str "sec-mda" then [str ".md", str ".txt"]
  else if dataset = str "sec-risk" then [str ".md", str ".txt"]
  else [str ".json", str ".md", str ".txt"]

/-- Attempt to read a `[0-9]{4}-[0-9]{2}-[0-9]{2}` token at the head of
the character list (one position of the `DATE_REGEX` scan). -/
def dateAt : Str → Option Str
  | d1 :: d2 :: d3 :: d4 :: h1 :: m1 :: m2 :: h2 :: a1 :: a2 :: _ =>
    if d1.isDigit && d2.isDigit && d3.isDigit && d4.isDigit && h1 = '-' &&
       m1.isDigit && m2.isDigit && h2 = '-' && a1.isDigit && a2.isDigit then
      some [d1, d2, d3, d4, h1, m1, m2, h2, a1, a2]
    else none
  | _ => none

/-- `DATE_REGEX.search` from `app/main.py`: the leftmost match of the
date pattern in a name, or `none`. -/
def searchDate : Str → Option Str
  | [] => none
  | c :: rest =>
    match dateAt (c :: rest) with
    | some m => some m
    | none => searchDate rest

/-- One filtered candidate as built inside `find_best_artifact`: the
blob, its parsed date and the index of its extension in the policy. -/
structure Artifact where
  blob : Blob
  date : Option Str
  extPreference : Nat
deriving DecidableEq, Repr

/-- The dictionary built per surviving blob in `find_best_artifact`
(lines 85-96): the first policy extension the name ends with, or `none`
when the blob is filtered out. -/
def mkArtifact (preferred_exts : List Str) (b : Blob) : Option Artifact :=
  (preferred_exts.findIdx? (fun e => e.isSuffixOf b.name)).map
    (fun i => ⟨b, searchDate b.name, i⟩)

/-- The Python sort key `(x["date"] or "", x["ext_preference"], x["blob"].updated)`
compared strictly: `keyLtB a b` holds when `a`'s key is lexicographically
smaller than `b`'s. -/
def keyLtB (a b : Artifact) : Bool :=
  strLtB (a.date.getD []) (b.date.getD []) ||
    (a.date.getD [] == b.date.getD [] &&
      (a.extPreference < b.extPreference ||
        (a.extPreference == b.extPreference && a.blob.updated < b.blob.updated)))

/-- Insert `a` into a list sorted descending by `gt`, after every element
strictly greater than it (stable insertion). -/
def insertSorted (gt : α → α → Bool) (a : α) : List α → List α
  | [] => [a]
  | b :: bs => if gt b a then b :: insertSorted gt a bs else a :: b :: bs

/-- Stable insertion sort, putting elements on which `gt` holds first:
with `gt a b = keyLtB b a` this is Python's `list.sort(key=..., reverse=True)`. -/
def sortBy (gt : α → α → Bool) : List α → List α
  | [] => []
  | a :: as => insertSorted gt a (sortBy gt as)

/-- The pure selection core of `find_best_artifact` (lines 79-111 of
`app/main.py`): filter the candidate blobs by the dataset's extension
policy, sort by `(date, ext_preference, updated)` descending, then
resolve `as_of`. -/
def selectBest (dataset : Str) (candidate_blobs : List Blob) (as_of : Str) : Option Blob :=
  if candidate_blobs.isEmpty then none
  else if (candidate_blobs.filterMap (mkArtifact (get_preferred_extensions dataset))).isEmpty
  then none
  else if as_of = str "latest" then
    (sortBy (fun a b => keyLtB b a)
      (candidate_blobs.filterMap (mkArtifact (get_preferred_extensions dataset)))).head?.map
        Artifact.blob
  else
    ((sortBy (fun a b => keyLtB b a)
      (candidate_blobs.filterMap (mkArtifact (get_preferred_extensions dataset)))).find?
        (fun a => a.date == some as_of)).map Artifact.blob

/-- Candidate gathering of `find_best_artifact` (lines 66-77): one
prefix per dataset to try, with the alias fan-out for `key-levels`;
`listBlobs` stands for the bucket's `list_blobs(prefix=...)`. -/
def gatherCandidates (listBlobs : Str → List Blob) (dataset item_id : Str) : List Blob :=
  let item_id_upper := upper item_id
  let datasets_to_try :=
    if dataset = str "key-levels" then [str "technicals-analysis", str "technicals"]
    else [dataset]
  datasets_to_try.foldl (fun acc ds => acc ++ listBlobs (ds ++ str "/" ++ item_id_upper)) []

/-- `find_best_artifact` from `app/main.py`, with the storage listing
passed in as a function. -/
def find_best_artifact (listBlobs : Str → List Blob) (dataset item_id as_of : Str) :
    Option Blob :=
  selectBest dataset (gatherCandidates listBlobs dataset item_id) as_of

/-- A string shaped like a file extension: a dot followed by a dot-free
tail (every entry of the policy table has this shape). -/
def isExtensionShaped : Str → Bool
  | [] => false
  | c :: r => c == '.' && ! decide ('.' ∈ r)

/-- Scenario blob `AAPL_2024-05-01.md` (given the latest modification
time, to show the C1 result below does not hinge on the tie-break). -/
def bMd0501 : Blob := ⟨str "AAPL_2024-05-01.md", 300⟩

/-- Scenario blob `AAPL_2024-05-01.json`. -/
def bJson0501 : Blob := ⟨str "AAPL_2024-05-01.json", 100⟩

/-- Scenario blob `AAPL_2024-04-01.md`. -/
def bMd0401 : Blob := ⟨str "AAPL_2024-04-01.md", 200⟩

/-- An HTTP error as raised by the service: status code and detail. -/
structure HTTPError where
  status : Nat
  detail : Str
deriving DecidableEq, Repr

/-- One row of the options-signals warehouse table, restricted to the
fields the expiration resolver reads; `expiration_date` is a calendar
date coded as a `Nat`, `days_to_expiration` an integer. -/
structure SignalRow where
  expiration_date : Nat
  days_to_expiration : Int
deriving DecidableEq, Repr

/-- `ORDER BY key ASC LIMIT 1` over a row list: the first row attaining
the minimal key. -/
def argminBy (key : α → Int) : List α → Option α
  | [] => none
  | a :: as =>
    match argminBy key as with
    | none => some a
    | some b => if key a ≤ key b then some a else some b

/-- Stage 1 of the expiration resolver (`options_signals.py` lines
208-216): rows with `days_to_expiration BETWEEN 30 AND 45`, ordered by
`days_to_expiration ASC`, first row. -/
def dteStage1 (rows : List SignalRow) : Option SignalRow :=
  argminBy (fun r => r.days_to_expiration)
    (rows.filter (fun r => 30 ≤ r.days_to_expiration && r.days_to_expiration ≤ 45))

/-- Stage 2 (lines 218-224): `ORDER BY ABS(days_to_expiration - 37) ASC
LIMIT 1` over all rows for the ticker and run date. -/
def dteStage2 (rows : List SignalRow) : Option SignalRow :=
  argminBy (fun r => ((r.days_to_expiration - 37).natAbs : Int)) rows

/-- The body of the `try` block resolving the expiration date in
`get_ticker_options_signals` when none is supplied: stage 1, then
stage 2, then the 404 raise (lines 212-226). -/
def resolveExpirationTry (ticker run_date_str : Str) (rows : List SignalRow) :
    Except HTTPError Nat :=
  match dteStage1 rows with
  | some r => .ok r.expiration_date
  | none =>
    match dteStage2 rows with
    | some r => .ok r.expiration_date
    | none =>
      .error ⟨404, str "No options signals found for ticker " ++ upper ticker ++
        str " on " ++ run_date_str ++ str "."⟩

/-- The whole expiration-resolution block including its `except
Exception` handler (lines 227-229), which catches every exception raised
inside the `try` block — including the `HTTPException(404)` raised there,
since `HTTPException` is an `Exception` subclass — and replaces it with a
500. -/
def resolveExpiration (ticker run_date_str : Str) (rows : List SignalRow) :
    Except HTTPError Nat :=
  match resolveExpirationTry ticker run_date_str rows with
  | .ok d => .ok d
  | .error _ => .error ⟨500, str "Could not determine expiration date."⟩

/-- The maximum of a list of dates, `none` on an empty list: the value
of `SELECT MAX(run_date)`, which is NULL over an empty table. -/
def maxRunDate : List Nat → Option Nat
  | [] => none
  | d :: ds =>
    match maxRunDate ds with
    | none => some d
    | some m => some (max d m)

/-- `get_latest_run_date` from `app/routers/options_signals.py`: the
table is the multiset of `run_date` values (days since an epoch) and
`now` the current processing time in days; when the aggregate yields no
date the code falls back to yesterday. -/
def get_latest_run_date (table : List Nat) (now : Nat) : Nat :=
  match maxRunDate table with
  | some d => d
  | none => now - 1

/-- Python `s.strip(c)`: remove every leading and trailing `c`. -/
def stripChar (c : Char) (l : Str) : Str :=
  ((l.dropWhile (· == c)).reverse.dropWhile (· == c)).reverse

/-- The response of `list_datasets`: the dataset list plus the optional
`hint` field present only in the fallback branch. -/
structure DatasetsResponse where
  datasets : List Str
  hint : Option Str
deriving DecidableEq, Repr

/-- `list_datasets` from `app/main.py` (lines 167-183): the storage
namespace enumeration is given as the (deduplicated) list of top-level
prefixes; names are stripped of slashes, `manifests` dropped, the rest
sorted, `options-signals` appended, and only then the empty-list
fallback is tested. -/
def list_datasets (prefixes : List Str) : DatasetsResponse :=
  if (sortBy strLtB ((prefixes.dedup.map (stripChar '/')).filter
      (fun p => p ≠ str "manifests")) ++ [str "options-signals"]) = [] then
    ⟨[str "recommendations", str "key-levels", str "technicals", str "options-signals"],
      some (str "fallback")⟩
  else
    ⟨sortBy strLtB (sortBy strLtB ((prefixes.dedup.map (stripChar '/')).filter
      (fun p => p ≠ str "manifests")) ++ [str "options-signals"]), none⟩

/-- JSON values, as returned by `json.loads`. -/
inductive Json where
  | str : Str → Json
  | num : Int → Json
  | bool : Bool → Json
  | null : Json
  | arr : List Json → Json
  | obj : List (Str × Json) → Json

/-- Python `data[k]` lookup on a dict modelled as an association list
(keys unique in an actual dict). -/
def lookupKey (k : Str) : List (Str × Json) → Option Json
  | [] => none
  | (k1, v) :: rest => if k1 = k then some v else lookupKey k rest

/-- The removal part of Python `data.pop(k)`. -/
def removeKey (k : Str) : List (Str × Json) → List (Str × Json)
  | [] => []
  | (k1, v) :: rest => if k1 = k then rest else (k1, v) :: removeKey k rest

/-- The response envelope, restricted to the two content fields the
content-handling logic populates. -/
structure Envelope where
  summary_md : Option Json
  metrics : Option Json

/-- The `analysis` narrative field name. -/
def keyAnalysis : Str := str "analysis"

/-- The `summary_md` narrative field name. -/
def keySummaryMd : Str := str "summary_md"

/-- Lines 147-163 of `app/main.py`: narrative passthrough for `.md` and
`.txt` names, decode-or-degrade for `.json` names; `decode` stands for
`json.loads`, returning `none` for a `JSONDecodeError`. For a decoded
dict, `analysis` is popped into `summary_md`, then `summary_md` is
popped into `summary_md`, and the remaining dict becomes `metrics`. -/
def buildEnvelopeContent (name content : Str) (decode : Str → Option Json) : Envelope :=
  if (str ".md").isSuffixOf name || (str ".txt").isSuffixOf name then
    ⟨some (.str content), none⟩
  else if (str ".json").isSuffixOf name then
    match decode content with
    | some (Json.obj m) =>
      match lookupKey keyAnalysis m with
      | some va =>
        match lookupKey keySummaryMd (removeKey keyAnalysis m) with
        | some vb =>
          ⟨some vb, some (Json.obj (removeKey keySummaryMd (removeKey keyAnalysis m)))⟩
        | none => ⟨some va, some (Json.obj (removeKey keyAnalysis m))⟩
      | none =>
        match lookupKey keySummaryMd m with
        | some vb => ⟨some vb, some (Json.obj (removeKey keySummaryMd m))⟩
        | none => ⟨none, some (Json.obj m)⟩
    | some j => ⟨none, some j⟩
    | none => ⟨some (.str content), none⟩
  else ⟨none, none⟩

/-- The numeric value of a decimal digit character. -/
def digitVal (c : Char) : Nat := c.toNat - '0'.toNat

/-- The Gregorian leap-year rule, as `datetime` applies it. -/
def isLeapYear (y : Nat) : Bool := (y % 4 == 0 && ! (y % 100 == 0)) || y % 400 == 0

/-- Days in a month of a year, as `datetime` counts them. -/
def daysInMonth (y m : Nat) : Nat :=
  if m == 2 then (if isLeapYear y then 29 else 28)
  else if m == 4 || m == 6 || m == 9 || m == 11 then 30
  else 31

/-- The success domain of `datetime.strptime(token, "%Y-%m-%d")` on a
ten-character date-shaped token: the year is at least 1 (`datetime`'s
MINYEAR; at most 9999 is automatic with four digits), the month is
1 to 12 and the day fits the month. On any other token `strptime`
raises `ValueError`. -/
def validDateToken : Str → Bool
  | [y1, y2, y3, y4, s1, m1, m2, s2, d1, d2] =>
    s1 == '-' && s2 == '-' &&
      (let y := ((digitVal y1 * 10 + digitVal y2) * 10 + digitVal y3) * 10 + digitVal y4
       let m := digitVal m1 * 10 + digitVal m2
       let d := digitVal d1 * 10 + digitVal d2
       1 ≤ y && 1 ≤ m && m ≤ 12 && 1 ≤ d && d ≤ daysInMonth y m)
  | _ => false

/-- `get_dataset_item` from `app/main.py`, from the blob lookup onward:
404 when no artifact resolves; otherwise lines 127-132 run
`datetime.strptime` on the date token extracted from the blob's name —
a date-shaped but calendar-invalid token makes it raise `ValueError`,
which the framework surfaces as a generic 500 — and only then is the
envelope built from the blob's content (`contentOf` stands for
`download_as_string`). When the name holds no token, the string parsed
is `blob.updated.strftime("%Y-%m-%d")`, always a valid date, so that
branch cannot fail. -/
def get_dataset_item (listBlobs : Str → List Blob) (dataset id_str as_of : Str)
    (contentOf : Blob → Str) (decode : Str → Option Json) : Except HTTPError Envelope :=
  match find_best_artifact listBlobs dataset id_str as_of with
  | none => .error ⟨404, str "Item not found."⟩
  | some blob =>
    match searchDate blob.name with
    | some tok =>
      if validDateToken tok then
        .ok (buildEnvelopeContent blob.name (contentOf blob) decode)
      else .error ⟨500, str "Internal Server Error"⟩
    | none => .ok (buildEnvelopeContent blob.name (contentOf blob) decode)

/-- A blob whose name carries a date-shaped but calendar-invalid token
(month 13, day 40): `DATE_REGEX` extracts it, `strptime` raises on it. -/
def bBadDate : Blob := ⟨str "AAPL_2024-13-40.json", 100⟩

/-- Concrete rows for the C5 witness: days to expiration 20 and 50, none
in the [30, 45] window. -/
def rowsTwentyFifty : List SignalRow := [⟨120, 20⟩, ⟨150, 50⟩]

/-- A decode function returning a dict that holds both narrative field
names (for the C4 scenario). -/
def decodeBoth : Str → Option Json :=
  fun _ => some (Json.obj [(keyAnalysis, Json.str (str "A")),
    (keySummaryMd, Json.str (str "B"))])

theorem mem_insertSorted {gt : α → α → Bool} {a x : α} {l : List α} :
    x ∈ insertSorted gt a l ↔ x = a ∨ x ∈ l := by
  induction l with
  | nil => simp [insertSorted]
  | cons b bs ih =>
    simp only [insertSorted]
    split
    · simp only [List.mem_cons, ih]
      tauto
    · simp only [List.mem_cons]

theorem mem_sortBy {gt : α → α → Bool} {x : α} {l : List α} :
    x ∈ sortBy gt l ↔ x ∈ l := by
  induction l with
  | nil => simp [sortBy]
  | cons a as ih => simp [sortBy, mem_insertSorted, ih]

theorem extShaped_destruct {e : Str} (he : isExtensionShaped e = true) :
    ∃ r, e = '.' :: r ∧ '.' ∉ r := by
  cases e with
  | nil => simp [isExtensionShaped] at he
  | cons c r =>
    simp only [isExtensionShaped, Bool.and_eq_true, beq_iff_eq, Bool.not_eq_true',
      decide_eq_false_iff_not] at he
    exact ⟨r, by rw [he.1], he.2⟩

theorem extShaped_eq_of_suffix {e f : Str} (he : isExtensionShaped e = true)
    (hf : isExtensionShaped f = true) (h : e <:+ f) : e = f := by
  obtain ⟨r, rfl, hr⟩ := extShaped_destruct he
  obtain ⟨s, rfl, hs⟩ := extShaped_destruct hf
  rcases List.suffix_cons_iff.mp h with h1 | h1
  · exact h1
  · exact absurd (h1.subset (List.mem_cons_self _ _)) hs

/-- Two extension-shaped suffixes of the same name coincide. -/
theorem extShaped_suffix_unique {e f l : Str} (he : isExtensionShaped e = true)
    (hf : isExtensionShaped f = true) (hel : e <:+ l) (hfl : f <:+ l) : e = f := by
  rcases List.suffix_or_suffix_of_suffix hel hfl with h | h
  · exact extShaped_eq_of_suffix he hf h
  · exact (extShaped_eq_of_suffix hf he h).symm

theorem all_ite {α : Type} {c : Prop} [inst : Decidable c] {p : α → Bool} {A B : List α}
    (hA : A.all p = true) (hB : B.all p = true) : (if c then A else B).all p = true := by
  split
  · exact hA
  · exact hB

theorem policy_all_shaped (dataset : Str) :
    (get_preferred_extensions dataset).all isExtensionShaped = true := by
  unfold get_preferred_extensions
  repeat' apply all_ite
  all_goals decide

/-- Every extension in every dataset's policy is extension-shaped. -/
theorem policy_extension_shaped (dataset : Str) :
    ∀ e ∈ get_preferred_extensions dataset, isExtensionShaped e = true :=
  List.all_eq_true.mp (policy_all_shaped dataset)

/-- Unpacking `mkArtifact ... = some a`. -/
theorem mkArtifact_eq_some {exts : List Str} {b : Blob} {a : Artifact}
    (h : mkArtifact exts b = some a) :
    a.blob = b ∧ a.date = searchDate b.name ∧
      ∃ e ∈ exts, e.isSuffixOf b.name = true := by
  unfold mkArtifact at h
  rcases Option.map_eq_some'.mp h with ⟨i, hi, rfl⟩
  refine ⟨rfl, rfl, ?_⟩
  have hs : (exts.findIdx? (fun e => e.isSuffixOf b.name)).isSome = true := by
    rw [hi]; rfl
  rw [List.findIdx?_isSome, List.any_eq_true] at hs
  exact hs

/-- `mkArtifact` succeeds whenever some policy extension matches. -/
theorem mkArtifact_isSome {exts : List Str} {b : Blob}
    (h : ∃ e ∈ exts, e.isSuffixOf b.name = true) :
    (mkArtifact exts b).isSome = true := by
  have hfi : (exts.findIdx? (fun e => e.isSuffixOf b.name)).isSome = true := by
    rw [List.findIdx?_isSome, List.any_eq_true]; exact h
  obtain ⟨i, hi⟩ := Option.isSome_iff_exists.mp hfi
  simp [mkArtifact, hi]

/-- If `selectBest` returns a blob, that blob survived the extension
filter: some policy extension is a suffix of its name. -/
theorem selectBest_mem_and_matches {dataset as_of : Str} {candidate_blobs : List Blob}
    {b : Blob} (hsel : selectBest dataset candidate_blobs as_of = some b) :
    b ∈ candidate_blobs ∧
      ∃ e ∈ get_preferred_extensions dataset, e.isSuffixOf b.name = true := by
  unfold selectBest at hsel
  have key : ∃ a ∈ (candidate_blobs.filterMap
      (mkArtifact (get_preferred_extensions dataset))), a.blob = b := by
    split at hsel
    · exact Option.noConfusion hsel
    · split at hsel
      · exact Option.noConfusion hsel
      · split at hsel
        · rcases Option.map_eq_some'.mp hsel with ⟨a, ha, hab⟩
          rcases List.head?_eq_some_iff.mp ha with ⟨t, ht⟩
          have hmem : a ∈ sortBy (fun a b => keyLtB b a)
              (candidate_blobs.filterMap (mkArtifact (get_preferred_extensions dataset))) := by
            rw [ht]; exact List.mem_cons_self _ _
          exact ⟨a, mem_sortBy.mp hmem, hab⟩
        · rcases Option.map_eq_some'.mp hsel with ⟨a, ha, hab⟩
          exact ⟨a, mem_sortBy.mp (List.mem_of_find?_eq_some ha), hab⟩
  rcases key with ⟨a, hamem, hab⟩
  rcases List.mem_filterMap.mp hamem with ⟨c, hc, hmk⟩
  rcases mkArtifact_eq_some hmk with ⟨hblob, _, hex⟩
  have hcb : c = b := by rw [← hblob, hab]
  subst hcb
  exact ⟨hc, hex⟩

/-- Claim C7: a candidate whose name ends in an extension absent from the
dataset's policy is never the selected artifact, regardless of its date
or modification time. (`e` is the extension the name ends in:
extension-shaped, a suffix of the name, and absent from the policy.) -/
theorem selectBest_foreign_extension_never_selected (dataset as_of : Str)
    (candidate_blobs : List Blob) (b : Blob) (e : Str)
    (hshape : isExtensionShaped e = true) (hsuf : e <:+ b.name)
    (habs : e ∉ get_preferred_extensions dataset) :
    selectBest dataset candidate_blobs as_of ≠ some b := by
  intro hsel
  rcases (selectBest_mem_and_matches hsel).2 with ⟨f, hfmem, hfsuf⟩
  have hfshape := policy_extension_shaped dataset f hfmem
  have : e = f :=
    extShaped_suffix_unique hshape hfshape hsuf (List.isSuffixOf_iff_suffix.mp hfsuf)
  exact habs (this ▸ hfmem)

/-- Witness for C7: under the `technicals` policy `[.json]`, the blob
`AAPL_2024-05-01.md` (ending in `.md`, absent from the policy) is never
selected. -/
theorem selectBest_foreign_extension_witness :
    isExtensionShaped (str ".md") = true ∧ (str ".md") <:+ bMd0501.name ∧
      (str ".md") ∉ get_preferred_extensions (str "technicals") ∧
      selectBest (str "technicals") [bMd0501] (str "latest") ≠ some bMd0501 :=
  ⟨by decide, by decide, by decide,
    selectBest_foreign_extension_never_selected (str "technicals") (str "latest")
      [bMd0501] bMd0501 (str ".md") (by decide) (by decide) (by decide)⟩

theorem isSome_map {α β : Type} (f : α → β) (o : Option α) :
    (o.map f).isSome = o.isSome := by
  cases o <;> rfl

/-- Claim C6: for every requested `as_of` other than `"latest"`,
`selectBest` returns a candidate if and only if some candidate surviving
the extension filter has an embedded date equal to the requested string
exactly; no partial or prefix match succeeds, and an exact match never
yields not-found. -/
theorem selectBest_exact_date_iff (dataset : Str) (candidate_blobs : List Blob) (as_of : Str)
    (h : as_of ≠ str "latest") :
    (selectBest dataset candidate_blobs as_of).isSome = true ↔
      ∃ b ∈ candidate_blobs,
        (∃ e ∈ get_preferred_extensions dataset, e.isSuffixOf b.name = true) ∧
        searchDate b.name = some as_of := by
  unfold selectBest
  rw [if_neg h]
  by_cases h1 : candidate_blobs.isEmpty = true
  · rw [if_pos h1]
    rw [List.isEmpty_iff] at h1
    subst h1
    simp
  · rw [if_neg h1]
    by_cases h2 : (candidate_blobs.filterMap
        (mkArtifact (get_preferred_extensions dataset))).isEmpty = true
    · rw [if_pos h2]
      rw [List.isEmpty_iff] at h2
      constructor
      · intro hx
        exact absurd hx (by simp)
      · rintro ⟨b, hb, hex, hdate⟩
        obtain ⟨a, hmk⟩ := Option.isSome_iff_exists.mp (mkArtifact_isSome hex)
        have hfm : a ∈ candidate_blobs.filterMap
            (mkArtifact (get_preferred_extensions dataset)) :=
          List.mem_filterMap.mpr ⟨b, hb, hmk⟩
        rw [h2] at hfm
        cases hfm
    · rw [if_neg h2]
      rw [isSome_map, List.find?_isSome]
      constructor
      · rintro ⟨a, hamem, hp⟩
        rcases List.mem_filterMap.mp (mem_sortBy.mp hamem) with ⟨b, hb, hmk⟩
        rcases mkArtifact_eq_some hmk with ⟨_, hdate, hex⟩
        refine ⟨b, hb, hex, ?_⟩
        rw [← hdate]
        exact eq_of_beq (by simpa using hp)
      · rintro ⟨b, hb, hex, hdate⟩
        obtain ⟨a, hmk⟩ := Option.isSome_iff_exists.mp (mkArtifact_isSome hex)
        rcases mkArtifact_eq_some hmk with ⟨_, hd, _⟩
        exact ⟨a, mem_sortBy.mpr (List.mem_filterMap.mpr ⟨b, hb, hmk⟩),
          by simp only [hd, hdate]; exact beq_self_eq_true _⟩

/-- Witness for C6 at a concrete input: dataset `recommendations`,
candidate `AAPL_2024-04-01.md`, requested date `2024-04-01`. -/
theorem selectBest_exact_date_witness :
    str "2024-04-01" ≠ str "latest" ∧
      ((selectBest (str "recommendations") [bMd0401] (str "2024-04-01")).isSome = true ↔
        ∃ b ∈ [bMd0401],
          (∃ e ∈ get_preferred_extensions (str "recommendations"),
            e.isSuffixOf b.name = true) ∧
          searchDate b.name = some (str "2024-04-01")) :=
  ⟨by decide,
    selectBest_exact_date_iff (str "recommendations") [bMd0401] (str "2024-04-01") (by decide)⟩

/-- Claim C10: for the aliased dataset `key-levels` the candidates are
gathered under the two physical prefixes `technicals-analysis` and
`technicals`, but filtering and ranking use the policy looked up for
`key-levels` itself, which is the default order `[.json, .md, .txt]`;
hence a candidate under the `technicals` prefix ending in `.md` survives
the filter (with rank 1) even though the `technicals` policy lists only
`.json`. -/
theorem keyLevels_alias_uses_keyLevels_policy (listBlobs : Str → List Blob)
    (item_id : Str) (b : Blob)
    (hb : b ∈ listBlobs (str "technicals" ++ str "/" ++ upper item_id))
    (hmd : (str ".md").isSuffixOf b.name = true) :
    get_preferred_extensions (str "key-levels") = [str ".json", str ".md", str ".txt"] ∧
      (⟨b, searchDate b.name, 1⟩ : Artifact) ∈
        (gatherCandidates listBlobs (str "key-levels") item_id).filterMap
          (mkArtifact (get_preferred_extensions (str "key-levels"))) := by
  have hpol : get_preferred_extensions (str "key-levels") =
      [str ".json", str ".md", str ".txt"] := by decide
  refine ⟨hpol, ?_⟩
  have hnj : (str ".json").isSuffixOf b.name = false := by
    cases hq : (str ".json").isSuffixOf b.name with
    | false => rfl
    | true =>
      have hjm : str ".json" = str ".md" :=
        extShaped_suffix_unique (by decide) (by decide)
          (List.isSuffixOf_iff_suffix.mp hq) (List.isSuffixOf_iff_suffix.mp hmd)
      exact absurd hjm (by decide)
  have hmk : mkArtifact (get_preferred_extensions (str "key-levels")) b =
      some ⟨b, searchDate b.name, 1⟩ := by
    unfold mkArtifact
    rw [hpol]
    simp [List.findIdx?_cons, hnj, hmd]
  refine List.mem_filterMap.mpr ⟨b, ?_, hmk⟩
  have hgather : gatherCandidates listBlobs (str "key-levels") item_id =
      listBlobs (str "technicals-analysis" ++ str "/" ++ upper item_id) ++
        listBlobs (str "technicals" ++ str "/" ++ upper item_id) := by
    unfold gatherCandidates
    simp
  rw [hgather]
  exact List.mem_append_right _ hb

/-- Witness for C10 at a concrete input: a listing whose `technicals`
prefix holds the blob `AAPL_2024-05-01.md`. -/
theorem keyLevels_alias_witness :
    bMd0501 ∈ (fun _ : Str => [bMd0501]) (str "technicals" ++ str "/" ++ upper (str "AAPL")) ∧
      (str ".md").isSuffixOf bMd0501.name = true ∧
      (get_preferred_extensions (str "key-levels") = [str ".json", str ".md", str ".txt"] ∧
        (⟨bMd0501, searchDate bMd0501.name, 1⟩ : Artifact) ∈
          (gatherCandidates (fun _ => [bMd0501]) (str "key-levels") (str "AAPL")).filterMap
            (mkArtifact (get_preferred_extensions (str "key-levels")))) :=
  ⟨by decide, by decide,
    keyLevels_alias_uses_keyLevels_policy (fun _ => [bMd0501]) (str "AAPL") bMd0501
      (by decide) (by decide)⟩

/-- Claim C1: the spec says that among candidates sharing a date the more
preferred extension is ordered first, so the scenario resolves to
`AAPL_2024-05-01.md`. The code sorts the triple `(date, ext_preference,
updated)` with `reverse=True`, which also reverses the extension rank, so
under policy `[.md, .json]` the `.json` candidate wins the 2024-05-01 tie
and `selectBest` returns `AAPL_2024-05-01.json` instead. -/
theorem selectBest_scenario_picks_json :
    selectBest (str "recommendations") [bMd0501, bJson0501, bMd0401] (str "latest") =
      some bJson0501 := by decide

theorem argminBy_eq_none {α : Type} {key : α → Int} {l : List α} :
    argminBy key l = none ↔ l = [] := by
  cases l with
  | nil => simp [argminBy]
  | cons x xs =>
    constructor
    · intro h
      exfalso
      unfold argminBy at h
      cases hr : argminBy key xs with
      | none => rw [hr] at h; cases h
      | some b => rw [hr] at h; dsimp only at h; split at h <;> cases h
    · intro h
      cases h

theorem argminBy_mem {α : Type} {key : α → Int} {l : List α} {a : α}
    (h : argminBy key l = some a) : a ∈ l ∧ ∀ b ∈ l, key a ≤ key b := by
  induction l generalizing a with
  | nil => cases h
  | cons x xs ih =>
    unfold argminBy at h
    cases hr : argminBy key xs with
    | none =>
      rw [hr] at h
      injection h with h
      subst h
      have hxs : xs = [] := argminBy_eq_none.mp hr
      subst hxs
      refine ⟨List.mem_singleton_self _, ?_⟩
      intro b hb
      rcases List.mem_singleton.mp hb with rfl
      exact le_refl _
    | some b =>
      rw [hr] at h
      dsimp only at h
      rcases ih hr with ⟨hbmem, hbmin⟩
      split at h
      · next hle =>
        injection h with h
        subst h
        refine ⟨List.mem_cons_self _ _, ?_⟩
        intro c hc
        rcases List.mem_cons.mp hc with rfl | hc
        · exact le_refl _
        · exact le_trans hle (hbmin c hc)
      · next hgt =>
        injection h with h
        subst h
        refine ⟨List.mem_cons_of_mem _ hbmem, ?_⟩
        intro c hc
        rcases List.mem_cons.mp hc with rfl | hc
        · exact le_of_lt (lt_of_not_le hgt)
        · exact hbmin c hc

theorem argminBy_isSome {α : Type} {key : α → Int} {l : List α} (h : l ≠ []) :
    (argminBy key l).isSome = true := by
  cases hr : argminBy key l with
  | none => exact absurd (argminBy_eq_none.mp hr) h
  | some a => rfl

/-- Claim C5: over a non-empty row set for the ticker and run date with
no explicit expiration supplied, if some row has `days_to_expiration` in
[30, 45] the resolver returns the expiration of a window row with the
smallest `days_to_expiration`; otherwise it returns the expiration of a
row minimizing `|days_to_expiration - 37|` over all rows (so for days
{20, 50} it picks the 50-day row, since 13 < 17). -/
theorem resolveExpiration_two_stage (ticker run_date_str : Str) (rows : List SignalRow)
    (hne : rows ≠ []) :
    ((∃ r ∈ rows, 30 ≤ r.days_to_expiration ∧ r.days_to_expiration ≤ 45) →
      ∃ r ∈ rows, (30 ≤ r.days_to_expiration ∧ r.days_to_expiration ≤ 45) ∧
        (∀ s ∈ rows, 30 ≤ s.days_to_expiration → s.days_to_expiration ≤ 45 →
          r.days_to_expiration ≤ s.days_to_expiration) ∧
        resolveExpiration ticker run_date_str rows = .ok r.expiration_date) ∧
    ((∀ r ∈ rows, ¬(30 ≤ r.days_to_expiration ∧ r.days_to_expiration ≤ 45)) →
      ∃ r ∈ rows,
        (∀ s ∈ rows,
          (r.days_to_expiration - 37).natAbs ≤ (s.days_to_expiration - 37).natAbs) ∧
        resolveExpiration ticker run_date_str rows = .ok r.expiration_date) := by
  constructor
  · rintro ⟨w, hw, hw30, hw45⟩
    have hwf : w ∈ rows.filter
        (fun r => 30 ≤ r.days_to_expiration && r.days_to_expiration ≤ 45) :=
      List.mem_filter.mpr ⟨hw, by simp [hw30, hw45]⟩
    have hfne : rows.filter
        (fun r => 30 ≤ r.days_to_expiration && r.days_to_expiration ≤ 45) ≠ [] :=
      List.ne_nil_of_mem hwf
    obtain ⟨r, hr⟩ := Option.isSome_iff_exists.mp (argminBy_isSome hfne)
    rcases argminBy_mem hr with ⟨hrmem, hrmin⟩
    rcases List.mem_filter.mp hrmem with ⟨hrrows, hrwin⟩
    simp only [Bool.and_eq_true, decide_eq_true_eq] at hrwin
    refine ⟨r, hrrows, hrwin, ?_, ?_⟩
    · intro s hs hs30 hs45
      exact hrmin s (List.mem_filter.mpr ⟨hs, by simp [hs30, hs45]⟩)
    · unfold resolveExpiration resolveExpirationTry dteStage1
      rw [hr]
  · intro hnw
    have hfnil : rows.filter
        (fun r => 30 ≤ r.days_to_expiration && r.days_to_expiration ≤ 45) = [] := by
      rw [List.filter_eq_nil_iff]
      intro r hrr
      simp only [Bool.and_eq_true, decide_eq_true_eq]
      exact fun hc => hnw r hrr hc
    have hs1 : dteStage1 rows = none := by
      unfold dteStage1
      rw [hfnil]
      rfl
    obtain ⟨r, hr⟩ := Option.isSome_iff_exists.mp
      (@argminBy_isSome SignalRow (fun r => ((r.days_to_expiration - 37).natAbs : Int))
        rows hne)
    rcases argminBy_mem hr with ⟨hrmem, hrmin⟩
    refine ⟨r, hrmem, ?_, ?_⟩
    · intro s hs
      exact_mod_cast hrmin s hs
    · unfold resolveExpiration resolveExpirationTry
      rw [hs1]
      unfold dteStage2
      rw [hr]

/-- Witness for C5 at the claim's own example {20, 50}: stage 2 picks the
50-day row (|50-37| = 13 < |20-37| = 17), whose expiration is 150. -/
theorem resolveExpiration_two_stage_witness :
    rowsTwentyFifty ≠ [] ∧
      (∀ r ∈ rowsTwentyFifty, ¬(30 ≤ r.days_to_expiration ∧ r.days_to_expiration ≤ 45)) ∧
      (∃ r ∈ rowsTwentyFifty,
        (∀ s ∈ rowsTwentyFifty,
          (r.days_to_expiration - 37).natAbs ≤ (s.days_to_expiration - 37).natAbs) ∧
        resolveExpiration (str "AAPL") (str "2024-05-01") rowsTwentyFifty =
          .ok r.expiration_date) ∧
      resolveExpiration (str "AAPL") (str "2024-05-01") rowsTwentyFifty = .ok 150 :=
  ⟨by decide, by decide,
    (resolveExpiration_two_stage (str "AAPL") (str "2024-05-01") rowsTwentyFifty
      (by decide)).2 (by decide),
    rfl⟩

/-- Claim C2: when both stages find no rows (here: the empty row set for
the requested ticker and run date), the code raises `HTTPException(404)`
inside the `try` block, but the block's own `except Exception` handler
catches that very exception and surfaces HTTP 500 "Could not determine
expiration date." — the NotFound condition is reported as an internal
error, contradicting the spec's taxonomy. -/
theorem resolveExpiration_exhausted_gives_500 :
    resolveExpirationTry (str "AAPL") (str "2024-05-01") [] =
      .error ⟨404, str "No options signals found for ticker AAPL on 2024-05-01."⟩ ∧
    resolveExpiration (str "AAPL") (str "2024-05-01") [] =
      .error ⟨500, str "Could not determine expiration date."⟩ :=
  ⟨rfl, rfl⟩

theorem maxRunDate_eq_none {l : List Nat} : maxRunDate l = none ↔ l = [] := by
  cases l with
  | nil => simp [maxRunDate]
  | cons x xs =>
    constructor
    · intro h
      exfalso
      unfold maxRunDate at h
      cases hr : maxRunDate xs with
      | none => rw [hr] at h; cases h
      | some m => rw [hr] at h; cases h
    · intro h
      cases h

theorem maxRunDate_spec {l : List Nat} {m : Nat} (h : maxRunDate l = some m) :
    m ∈ l ∧ ∀ d ∈ l, d ≤ m := by
  induction l generalizing m with
  | nil => cases h
  | cons x xs ih =>
    unfold maxRunDate at h
    cases hr : maxRunDate xs with
    | none =>
      rw [hr] at h
      injection h with h
      subst h
      have hxs : xs = [] := maxRunDate_eq_none.mp hr
      subst hxs
      refine ⟨List.mem_singleton_self _, ?_⟩
      intro d hd
      rcases List.mem_singleton.mp hd with rfl
      exact le_refl _
    | some mx =>
      rw [hr] at h
      injection h with h
      subst h
      rcases ih hr with ⟨hmem, hub⟩
      constructor
      · rcases max_choice x mx with hc | hc <;> rw [hc]
        · exact List.mem_cons_self _ _
        · exact List.mem_cons_of_mem _ hmem
      · intro d hd
        rcases List.mem_cons.mp hd with rfl | hd
        · exact le_max_left _ _
        · exact le_trans (hub d hd) (le_max_right _ _)

/-- Claim C9: `get_latest_run_date` returns the maximum `run_date`
present in the table (an upper bound that is itself a table entry), and
on an empty table returns one day before the current processing time
instead of failing. -/
theorem get_latest_run_date_spec (table : List Nat) (now : Nat) :
    (∀ d ∈ table, d ≤ get_latest_run_date table now) ∧
    (table ≠ [] → get_latest_run_date table now ∈ table) ∧
    (table = [] → get_latest_run_date table now = now - 1) := by
  unfold get_latest_run_date
  cases hr : maxRunDate table with
  | none =>
    have ht := maxRunDate_eq_none.mp hr
    subst ht
    refine ⟨?_, ?_, fun h => rfl⟩
    · intro d hd
      cases hd
    · intro h
      exact absurd rfl h
  | some m =>
    rcases maxRunDate_spec hr with ⟨hmem, hub⟩
    refine ⟨hub, fun h => hmem, fun h => ?_⟩
    subst h
    simp [maxRunDate] at hr

/-- Witness for C9: table {3, 7, 5} with now = 100 yields 7; the empty
table yields 99. -/
theorem get_latest_run_date_witness :
    (([3, 7, 5] : List Nat) ≠ [] ∧ get_latest_run_date [3, 7, 5] 100 ∈ [3, 7, 5]) ∧
      get_latest_run_date [3, 7, 5] 100 = 7 ∧
      get_latest_run_date [] 100 = 99 :=
  ⟨⟨by decide, (get_latest_run_date_spec [3, 7, 5] 100).2.1 (by decide)⟩,
    by decide, by decide⟩

/-- Claim C3: evaluating `list_datasets` at the failing input (the
storage namespace enumeration yields no prefixes): because the synthetic
`options-signals` entry is appended before the emptiness test, the
result is `["options-signals"]` with no hint; the hardcoded default
fallback list the spec describes is unreachable. -/
theorem list_datasets_empty_skips_fallback :
    list_datasets [] = ⟨[str "options-signals"], none⟩ ∧
      list_datasets [] ≠
        ⟨[str "recommendations", str "key-levels", str "technicals",
          str "options-signals"], some (str "fallback")⟩ :=
  ⟨by decide, by decide⟩

theorem lookupKey_eq_none {k : Str} {m : List (Str × Json)}
    (h : k ∉ m.map Prod.fst) : lookupKey k m = none := by
  induction m with
  | nil => rfl
  | cons p rest ih =>
    obtain ⟨k2, v⟩ := p
    simp only [List.map_cons, List.mem_cons, not_or] at h
    unfold lookupKey
    rw [if_neg (fun hq => h.1 hq.symm)]
    exact ih h.2

theorem lookupKey_cons (k k2 : Str) (v : Json) (rest : List (Str × Json)) :
    lookupKey k ((k2, v) :: rest) = if k2 = k then some v else lookupKey k rest := rfl

theorem removeKey_cons (k k2 : Str) (v : Json) (rest : List (Str × Json)) :
    removeKey k ((k2, v) :: rest) =
      if k2 = k then rest else (k2, v) :: removeKey k rest := rfl

theorem lookupKey_removeKey_ne {k k1 : Str} (h : k1 ≠ k) (m : List (Str × Json)) :
    lookupKey k1 (removeKey k m) = lookupKey k1 m := by
  induction m with
  | nil => rfl
  | cons p rest ih =>
    obtain ⟨k2, v⟩ := p
    rw [removeKey_cons]
    by_cases hq : k2 = k
    · rw [if_pos hq, lookupKey_cons, if_neg (fun hk => h (by rw [← hk, hq]))]
    · rw [if_neg hq, lookupKey_cons, lookupKey_cons]
      by_cases hk : k2 = k1
      · rw [if_pos hk, if_pos hk]
      · rw [if_neg hk, if_neg hk]
        exact ih

theorem lookupKey_removeKey_self {k : Str} {m : List (Str × Json)}
    (h : (m.map Prod.fst).Nodup) : lookupKey k (removeKey k m) = none := by
  induction m with
  | nil => rfl
  | cons p rest ih =>
    obtain ⟨k2, v⟩ := p
    simp only [List.map_cons, List.nodup_cons] at h
    rw [removeKey_cons]
    by_cases hq : k2 = k
    · rw [if_pos hq]
      subst hq
      exact lookupKey_eq_none h.1
    · rw [if_neg hq, lookupKey_cons, if_neg hq]
      exact ih h.2

theorem keys_removeKey_subset (k : Str) (m : List (Str × Json)) :
    ((removeKey k m).map Prod.fst) ⊆ m.map Prod.fst := by
  induction m with
  | nil => intro x hx; exact hx
  | cons p rest ih =>
    obtain ⟨k2, v⟩ := p
    rw [removeKey_cons]
    by_cases hq : k2 = k
    · rw [if_pos hq]
      intro x hx
      exact List.mem_cons_of_mem _ hx
    · rw [if_neg hq]
      intro x hx
      rcases List.mem_cons.mp hx with rfl | hx
      · exact List.mem_cons_self _ _
      · exact List.mem_cons_of_mem _ (ih hx)

theorem nodup_removeKey {k : Str} {m : List (Str × Json)}
    (h : (m.map Prod.fst).Nodup) : (((removeKey k m).map Prod.fst)).Nodup := by
  induction m with
  | nil => exact h
  | cons p rest ih =>
    obtain ⟨k2, v⟩ := p
    simp only [List.map_cons, List.nodup_cons] at h
    rw [removeKey_cons]
    by_cases hq : k2 = k
    · rw [if_pos hq]
      exact h.2
    · rw [if_neg hq]
      simp only [List.map_cons, List.nodup_cons]
      exact ⟨fun hmem => h.1 (keys_removeKey_subset k rest hmem), ih h.2⟩

/-- A name ending in `.json` ends neither in `.md` nor in `.txt`. -/
theorem json_name_not_md_txt {name : Str}
    (hjson : (str ".json").isSuffixOf name = true) :
    (str ".md").isSuffixOf name = false ∧ (str ".txt").isSuffixOf name = false := by
  constructor
  · cases hq : (str ".md").isSuffixOf name with
    | false => rfl
    | true =>
      have heq : str ".md" = str ".json" :=
        extShaped_suffix_unique (by decide) (by decide)
          (List.isSuffixOf_iff_suffix.mp hq) (List.isSuffixOf_iff_suffix.mp hjson)
      exact absurd heq (by decide)
  · cases hq : (str ".txt").isSuffixOf name with
    | false => rfl
    | true =>
      have heq : str ".txt" = str ".json" :=
        extShaped_suffix_unique (by decide) (by decide)
          (List.isSuffixOf_iff_suffix.mp hq) (List.isSuffixOf_iff_suffix.mp hjson)
      exact absurd heq (by decide)

/-- Claim C4 is false as stated: with both narrative fields present, the
summary is the `summary_md` value "B" (the second field checked), not the
first-matching `analysis` value "A". -/
theorem buildEnvelope_first_match_counterexample :
    (buildEnvelopeContent (str "X.json") (str "body") decodeBoth).summary_md =
      some (Json.str (str "B")) ∧
    (buildEnvelopeContent (str "X.json") (str "body") decodeBoth).summary_md ≠
      some (Json.str (str "A")) := by
  refine ⟨rfl, ?_⟩
  intro h
  rw [show (buildEnvelopeContent (str "X.json") (str "body") decodeBoth).summary_md =
    some (Json.str (str "B")) from rfl] at h
  injection h with h
  injection h with h
  exact absurd h (by decide)

/-- Claim C4 (amended): for every structured body that decodes to a dict
containing both candidate narrative field names, the LAST matching field
wins — the `summary_md` value overwrites the `analysis` value in the
envelope's summary — and both fields are removed from the payload that
becomes `metrics`. -/
theorem buildEnvelope_both_fields (name content : Str) (m : List (Str × Json))
    (decode : Str → Option Json) (va vb : Json)
    (hjson : (str ".json").isSuffixOf name = true)
    (hdec : decode content = some (Json.obj m))
    (ha : lookupKey keyAnalysis m = some va)
    (hs : lookupKey keySummaryMd m = some vb)
    (hnd : (m.map Prod.fst).Nodup) :
    buildEnvelopeContent name content decode =
      ⟨some vb, some (Json.obj (removeKey keySummaryMd (removeKey keyAnalysis m)))⟩ ∧
    lookupKey keyAnalysis (removeKey keySummaryMd (removeKey keyAnalysis m)) = none ∧
    lookupKey keySummaryMd (removeKey keySummaryMd (removeKey keyAnalysis m)) = none := by
  have hne : keySummaryMd ≠ keyAnalysis := by decide
  rcases json_name_not_md_txt hjson with ⟨hmd, htxt⟩
  refine ⟨?_, ?_, ?_⟩
  · unfold buildEnvelopeContent
    rw [if_neg (by simp [hmd, htxt]), if_pos hjson, hdec]
    have hs1 : lookupKey keySummaryMd (removeKey keyAnalysis m) = some vb := by
      rw [lookupKey_removeKey_ne hne]
      exact hs
    simp only [ha, hs1]
  · rw [lookupKey_removeKey_ne (fun hq => hne hq.symm),
      lookupKey_removeKey_self hnd]
  · exact lookupKey_removeKey_self (nodup_removeKey hnd)

/-- Witness for C4 (amended) at a concrete input: the dict
`{analysis: "A", summary_md: "B"}`. -/
theorem buildEnvelope_both_fields_witness :
    ((str ".json").isSuffixOf (str "X.json") = true ∧
      decodeBoth (str "body") = some (Json.obj [(keyAnalysis, Json.str (str "A")),
        (keySummaryMd, Json.str (str "B"))])) ∧
    (buildEnvelopeContent (str "X.json") (str "body") decodeBoth =
      ⟨some (Json.str (str "B")),
        some (Json.obj (removeKey keySummaryMd (removeKey keyAnalysis
          [(keyAnalysis, Json.str (str "A")), (keySummaryMd, Json.str (str "B"))])))⟩ ∧
      lookupKey keyAnalysis (removeKey keySummaryMd (removeKey keyAnalysis
        [(keyAnalysis, Json.str (str "A")), (keySummaryMd, Json.str (str "B"))])) = none ∧
      lookupKey keySummaryMd (removeKey keySummaryMd (removeKey keyAnalysis
        [(keyAnalysis, Json.str (str "A")), (keySummaryMd, Json.str (str "B"))])) = none) :=
  ⟨⟨by decide, rfl⟩,
    buildEnvelope_both_fields (str "X.json") (str "body")
      [(keyAnalysis, Json.str (str "A")), (keySummaryMd, Json.str (str "B"))]
      decodeBoth (Json.str (str "A")) (Json.str (str "B"))
      (by decide) rfl rfl (by rfl) (by decide)⟩

/-- Claim C8 as stated is false: for the resolved `.json` artifact
`AAPL_2024-13-40.json`, whose body fails to decode, the request does not
succeed — the `strptime` at line 132 raises `ValueError` on the
date-shaped but calendar-invalid token `2024-13-40` before the content
is even handled, and the request fails with 500, decode recovery
notwithstanding. -/
theorem get_dataset_item_invalid_token_counterexample :
    (str ".json").isSuffixOf bBadDate.name = true ∧
    find_best_artifact (fun _ => [bBadDate]) (str "technicals") (str "AAPL")
      (str "latest") = some bBadDate ∧
    get_dataset_item (fun _ => [bBadDate]) (str "technicals") (str "AAPL") (str "latest")
      (fun _ => str "oops") (fun _ => none) =
      .error ⟨500, str "Internal Server Error"⟩ :=
  ⟨by decide, by decide, rfl⟩

/-- Claim C8 (amended): when the resolved artifact is a `.json` blob
whose embedded date token, if any, is calendar-valid (so the `strptime`
of lines 127-132 succeeds), a decode failure does not fail the request:
the handler returns `.ok` with the envelope carrying the raw body
verbatim as the narrative summary. -/
theorem get_dataset_item_decode_failure (listBlobs : Str → List Blob)
    (dataset id_str as_of : Str) (contentOf : Blob → Str) (decode : Str → Option Json)
    (b : Blob) (hfind : find_best_artifact listBlobs dataset id_str as_of = some b)
    (hjson : (str ".json").isSuffixOf b.name = true)
    (hfail : decode (contentOf b) = none)
    (hvalid : Option.all validDateToken (searchDate b.name) = true) :
    get_dataset_item listBlobs dataset id_str as_of contentOf decode =
      .ok ⟨some (Json.str (contentOf b)), none⟩ := by
  have henv : buildEnvelopeContent b.name (contentOf b) decode =
      ⟨some (Json.str (contentOf b)), none⟩ := by
    rcases json_name_not_md_txt hjson with ⟨hmd, htxt⟩
    unfold buildEnvelopeContent
    rw [if_neg (by simp [hmd, htxt]), if_pos hjson, hfail]
  unfold get_dataset_item
  rw [hfind]
  dsimp only
  cases htok : searchDate b.name with
  | none =>
    dsimp only
    rw [henv]
  | some tok =>
    rw [htok] at hvalid
    have hv : validDateToken tok = true := hvalid
    dsimp only
    rw [if_pos hv, henv]

/-- Witness for the amended C8 at a concrete input: a listing holding
only `AAPL_2024-05-01.json` (a calendar-valid token), content "oops",
decoding always failing. -/
theorem get_dataset_item_decode_failure_witness :
    find_best_artifact (fun _ => [bJson0501]) (str "technicals") (str "AAPL")
      (str "latest") = some bJson0501 ∧
    (str ".json").isSuffixOf bJson0501.name = true ∧
    Option.all validDateToken (searchDate bJson0501.name) = true ∧
    get_dataset_item (fun _ => [bJson0501]) (str "technicals") (str "AAPL") (str "latest")
      (fun _ => str "oops") (fun _ => none) = .ok ⟨some (Json.str (str "oops")), none⟩ :=
  ⟨by decide, by decide, by decide,
    get_dataset_item_decode_failure (fun _ => [bJson0501]) (str "technicals") (str "AAPL")
      (str "latest") (fun _ => str "oops") (fun _ => none) bJson0501
      (by decide) (by decide) rfl (by decide)⟩
